import Mathlib

set_option maxRecDepth 10000

/-!
Shallow embedding of `src/script.js` (client-side CSV parser, catalog
normalizer/renderer and image-gallery navigation) and proofs about the
spec's claims.

Modelling conventions:
- JS strings are Lean `String`s; inside the CSV parser the accumulated
  field is a `List Char` so that the character loop can be reasoned about
  by structural induction.  Fields are converted back to `String` when the
  row objects are built, mirroring the point where the JS code stops
  looking at individual characters.
- JS `undefined` (missing object property) is `Option.none`; a fallible
  function (one that can throw a `TypeError`) returns `Option`.
- JS `s.trim()` is truthy exactly when `s` contains a non-whitespace
  character; the blank-line check `currentLine.some(f => f.trim())` is
  embedded as `List.any` of `!Char.isWhitespace`.  (JS trims a slightly
  larger whitespace set than `Char.isWhitespace`; the inputs at issue only
  use ASCII whitespace.)
- Characters that are delimiters in the JS source (double quote, single
  quote, backslash, CR, LF, comma, brackets) are named via `Char.ofNat`.
-/

def dquote : Char := Char.ofNat 34

def squote : Char := Char.ofNat 39

def bslash : Char := Char.ofNat 92

def lineFeed : Char := Char.ofNat 10

def carriageReturn : Char := Char.ofNat 13

def commaChar : Char := Char.ofNat 44

def lbrack : Char := Char.ofNat 91

def rbrack : Char := Char.ofNat 93

/-- JS `String.prototype.trim`: drop leading and trailing whitespace.
Modelled directly on the character list (`String.trim` of core Lean computes
with byte positions, which the kernel cannot evaluate). -/
def jsTrim (s : String) : String :=
  String.mk (((s.toList.dropWhile Char.isWhitespace).reverse.dropWhile
    Char.isWhitespace).reverse)

/-- JS `String.prototype.toLowerCase` for the ASCII range. -/
def jsToLower (s : String) : String :=
  String.mk (s.toList.map Char.toLower)

/-- Split a character list at every occurrence of `sep` (JS
`String.prototype.split` with a one-character separator). -/
def splitListOn (sep : Char) : List Char → List (List Char)
  | [] => [[]]
  | c :: cs =>
    match splitListOn sep cs with
    | [] => if c = sep then [[], []] else [[c]]
    | g :: gs => if c = sep then [] :: g :: gs else (c :: g) :: gs

/-- JS `s.split(",")`. -/
def jsSplitComma (s : String) : List String :=
  (splitListOn commaChar s.toList).map String.mk

/-- Mutable state of the character loop of `parseCSV` (script.js:11-14):
`lines`, `currentLine`, `currentField`, `insideQuotes`. -/
structure CSVState where
  lines : List (List (List Char))
  curLine : List (List Char)
  curField : List Char
  insideQuotes : Bool
deriving Repr, DecidableEq

/-- Lines 32-35 of script.js: push `currentField` onto `currentLine` and keep the line
only when some field has a non-whitespace character (`field.trim()` truthy). -/
def flushLine (s : CSVState) : List (List (List Char)) :=
  let fullLine := s.curLine ++ [s.curField]
  if fullLine.any (fun f => f.any (fun ch => !ch.isWhitespace)) then
    s.lines ++ [fullLine]
  else s.lines

/-- State after a line terminator outside quotes (script.js:30-37). -/
def afterLine (s : CSVState) : CSVState :=
  ⟨flushLine s, [], [], s.insideQuotes⟩

/-- The character loop of `parseCSV` (script.js:16-41), with the one-character
lookahead (`nextChar`, and the `i++` skips) rendered as pattern matching on
the remaining input.  A call `csvRun [] s` is inlined as `s` where the JS
loop simply terminates. -/
def csvRun (input : List Char) (s : CSVState) : CSVState :=
  match input with
  | [] => s
  | [c] =>
    if c = dquote then { s with insideQuotes := !s.insideQuotes }
    else if c = commaChar ∧ s.insideQuotes = false then
      { s with curLine := s.curLine ++ [s.curField], curField := [] }
    else if (c = lineFeed ∨ c = carriageReturn) ∧ s.insideQuotes = false then
      afterLine s
    else { s with curField := s.curField ++ [c] }
  | c :: c2 :: cs =>
    if c = dquote then
      if s.insideQuotes ∧ c2 = dquote then
        csvRun cs { s with curField := s.curField ++ [dquote] }
      else csvRun (c2 :: cs) { s with insideQuotes := !s.insideQuotes }
    else if c = commaChar ∧ s.insideQuotes = false then
      csvRun (c2 :: cs) { s with curLine := s.curLine ++ [s.curField], curField := [] }
    else if (c = lineFeed ∨ c = carriageReturn) ∧ s.insideQuotes = false then
      if c = carriageReturn ∧ c2 = lineFeed then csvRun cs (afterLine s)
      else csvRun (c2 :: cs) (afterLine s)
    else csvRun (c2 :: cs) { s with curField := s.curField ++ [c] }
termination_by structural input

/-- Lines 44-47 of script.js: after the loop, the last line is pushed whenever the
field is nonempty (truthy) or the line already has fields — note: with no
blank-line check. -/
def csvFinish (s : CSVState) : List (List (List Char)) :=
  if s.curField ≠ [] ∨ s.curLine ≠ [] then s.lines ++ [s.curLine ++ [s.curField]]
  else s.lines

def initCSVState : CSVState := ⟨[], [], [], false⟩

/-- The emitted lines of `parseCSV` for a given input text. -/
def csvLines (text : String) : List (List (List Char)) :=
  csvFinish (csvRun text.toList initCSVState)

/-- The value of `insideQuotes` when the character loop runs off the end of
the input. -/
def endsInsideQuotes (text : String) : Bool :=
  (csvRun text.toList initCSVState).insideQuotes

/-- Lines 52-56 of script.js: build one row object; `obj[header] = line[index] || ''`
gives `''` both for a missing index (undefined) and for an empty field.
The JS object is modelled as an association list in header order; a
duplicate header overwrites, which lookup (`rowGet`) models by taking the
last matching entry. -/
def mkRow (headers : List String) (line : List String) : List (String × String) :=
  headers.enum.map (fun p => (p.2, line.getD p.1 ""))

/-- The function `parseCSV` (script.js:10-58).  `lines[0]` on an empty `lines` is
`undefined` and `.map` on it throws a `TypeError`; that fault is modelled
as `none`. -/
def parseCSV (text : String) : Option (List (List (String × String))) :=
  match csvLines text with
  | [] => none
  | header :: dataLines =>
    let headers := header.map (fun h => jsTrim (String.mk h))
    some (dataLines.map (fun line => mkRow headers (line.map String.mk)))

/-- Property read of a row object: the last write to the key wins. -/
def rowGet (row : List (String × String)) (key : String) : Option String :=
  (row.reverse.find? (fun p => p.1 = key)).map Prod.snd

/-- JS `x || dflt` for a possibly-missing string property: the default is
taken when the property is absent (undefined) or the empty string. -/
def jsOrDefault (v : Option String) (dflt : String) : String :=
  match v with
  | none => dflt
  | some s => if s = "" then dflt else s

/-- The function `cleanPrice` (script.js:63-67). -/
def cleanPrice (price : Option String) : Option String :=
  let cleaned := jsTrim (jsOrDefault price "")
  if cleaned = "" ∨ cleaned = "???" then none else some cleaned

/-- The function `parseImages` (script.js:72-79). -/
def parseImages (imagesStr : Option String) : List String :=
  match imagesStr with
  | none => []
  | some s =>
    if s = "" ∨ jsTrim s = "" then []
    else
      ((jsSplitComma s).map jsTrim).filter (fun img => img.length > 0)
        |>.map (fun img => "images/" ++ img)

/-- The `CatalogItem` object built by `normalizeItem`. -/
structure CatalogItem where
  name : String
  newPrice : Option String
  askingPrice : Option String
  available : String
  images : List String
  notes : String
  sold : Bool
deriving Repr, DecidableEq

/-- The function `normalizeItem` (script.js:84-94). -/
def normalizeItem (rawItem : List (String × String)) : CatalogItem :=
  { name := jsOrDefault (rowGet rawItem "Item") "Unnamed Item"
    newPrice := cleanPrice (rowGet rawItem "New price")
    askingPrice := cleanPrice (rowGet rawItem "Asking price")
    available := jsOrDefault (rowGet rawItem "Available") ""
    images := parseImages (rowGet rawItem "Images")
    notes := jsOrDefault (rowGet rawItem "Notes") ""
    sold := jsTrim (jsToLower (jsOrDefault (rowGet rawItem "Status") "")) = "sold" }

/-- The character expansion performed by `escapeHtml` (script.js:101-105):
setting `textContent` and reading `innerHTML` escapes the ampersand and the
angle brackets of the text (and nothing else: in particular quotes are left
alone in a text-node serialization). -/
def escChar (c : Char) : List Char :=
  if c = Char.ofNat 38 then (Char.ofNat 38) :: ("amp").toList ++ [Char.ofNat 59]
  else if c = Char.ofNat 60 then (Char.ofNat 38) :: ("lt").toList ++ [Char.ofNat 59]
  else if c = Char.ofNat 62 then (Char.ofNat 38) :: ("gt").toList ++ [Char.ofNat 59]
  else [c]

/-- The function `escapeHtml` (script.js:101-105). -/
def escapeHtml (text : String) : String :=
  String.mk (text.toList.map escChar).flatten

/-- The function `formatAvailability` (script.js:110-118). -/
def formatAvailability (available : String) : Option String :=
  if available = "" ∨ available = "???" ∨ jsTrim available = "" then none
  else if jsToLower available = "now" then some "Available now"
  else some ("Available " ++ available)

/-- One hexadecimal digit as produced by `JSON.stringify` for control
characters. -/
def hexDigit (n : Nat) : Char :=
  if n < 10 then Char.ofNat (48 + n) else Char.ofNat (87 + n)

/-- Per-character escaping of `JSON.stringify` for string values. -/
def jsonEscChar (c : Char) : List Char :=
  if c = dquote then [bslash, dquote]
  else if c = bslash then [bslash, bslash]
  else if c = Char.ofNat 8 then [bslash, Char.ofNat 98]
  else if c = Char.ofNat 9 then [bslash, Char.ofNat 116]
  else if c = lineFeed then [bslash, Char.ofNat 110]
  else if c = Char.ofNat 12 then [bslash, Char.ofNat 102]
  else if c = carriageReturn then [bslash, Char.ofNat 114]
  else if c.toNat < 32 then
    [bslash, Char.ofNat 117, Char.ofNat 48, Char.ofNat 48,
      hexDigit (c.toNat / 16), hexDigit (c.toNat % 16)]
  else [c]

/-- The rendering of one string value by `JSON.stringify`. -/
def jsonStr (s : String) : List Char :=
  dquote :: (s.toList.map jsonEscChar).flatten ++ [dquote]

/-- The comma-separated item list of `JSON.stringify` of an array. -/
def jsonItems : List String → List Char
  | [] => []
  | [s] => jsonStr s
  | s :: rest => jsonStr s ++ commaChar :: jsonItems rest

/-- The rendering of an array of strings by `JSON.stringify`, as used at script.js:139. -/
def jsonStringify (l : List String) : String :=
  String.mk (lbrack :: jsonItems l ++ [rbrack])

/-- The number of occurrences of a character in a string. -/
def countChar (c : Char) (s : String) : Nat :=
  s.toList.count c

/-- The function `renderImageContainer` (script.js:123-148).  The template literal is
reproduced with its interpolations; `data-images` is delimited by single
quotes in the source, written here via `squote`. -/
def renderImageContainer (item : CatalogItem) : String :=
  if item.images.length = 0 then ""
  else
    let mainImage := item.images.headD ""
    let navigationHTML :=
      if item.images.length > 1 then
        "<button class=\"image-nav-prev\" aria-label=\"Previous image\">‹</button>\n               <button class=\"image-nav-next\" aria-label=\"Next image\">›</button>\n               <div class=\"image-counter\">1 / "
          ++ toString item.images.length ++ "</div>"
      else ""
    "\n            <div class=\"item-image-container\" data-images="
      ++ String.mk [squote] ++ jsonStringify item.images ++ String.mk [squote]
      ++ ">\n                <img src=\"" ++ mainImage
      ++ "\"\n                     alt=\"" ++ escapeHtml item.name
      ++ "\"\n                     class=\"item-image item-main-image\"\n                     data-full-image=\""
      ++ mainImage
      ++ "\"\n                     data-current-index=\"0\">\n                "
      ++ navigationHTML ++ "\n            </div>\n        "

/-- The function `navigateImage` (script.js:204-228), reduced to its index arithmetic:
`currentIndex = (currentIndex + direction + images.length) % images.length`.
The operands are nonnegative for in-range indices, where JS `%` agrees with
`Int.emod`. -/
def navigateImage (images : List String) (currentIndex direction : Int) : Int :=
  (currentIndex + direction + images.length) % images.length

/-- The function `navigateModalImage` (script.js:382-406): the same index update as
`navigateImage`, applied to the modal's transient copy of the list and
synced back to the originating card. -/
def navigateModalImage (images : List String) (currentIndex direction : Int) : Int :=
  (currentIndex + direction + images.length) % images.length

/-- Double every internal quote of a field value, the quoting convention of
the round-trip property. -/
def escapeQuotes : List Char → List Char
  | [] => []
  | c :: cs =>
    if c = dquote then dquote :: dquote :: escapeQuotes cs
    else c :: escapeQuotes cs

/-- Wrap a field value in double quotes with internal quotes doubled. -/
def quoteCSVField (v : String) : String :=
  String.mk (dquote :: escapeQuotes v.toList ++ [dquote])

/-! ### Basic helpers -/

theorem data_mk (l : List Char) : (String.mk l).data = l := rfl

theorem toList_mk (l : List Char) : (String.mk l).toList = l := rfl

theorem mk_toList (s : String) : String.mk s.toList = s := rfl

theorem countChar_append (c : Char) (s t : String) :
    countChar c (s ++ t) = countChar c s + countChar c t := by
  simp [countChar, String.toList, String.data_append, List.count_append]

/-! ### Step lemmas for the CSV character loop -/

theorem csvRun_plain (c : Char) (cs : List Char) (s : CSVState)
    (h1 : c ≠ dquote) (h2 : c ≠ commaChar) (h3 : c ≠ lineFeed)
    (h4 : c ≠ carriageReturn) :
    csvRun (c :: cs) s = csvRun cs { s with curField := s.curField ++ [c] } := by
  cases cs with
  | nil => simp [csvRun, h1, h2, h3, h4]
  | cons c2 cs2 => simp [csvRun, h1, h2, h3, h4]

theorem csvRun_inQuotes_char (c : Char) (cs : List Char) (s : CSVState)
    (h1 : c ≠ dquote) (hq : s.insideQuotes = true) :
    csvRun (c :: cs) s = csvRun cs { s with curField := s.curField ++ [c] } := by
  cases cs with
  | nil => simp [csvRun, h1, hq]
  | cons c2 cs2 => simp [csvRun, h1, hq]

theorem csvRun_openQuote (cs : List Char) (s : CSVState)
    (hq : s.insideQuotes = false) :
    csvRun (dquote :: cs) s = csvRun cs { s with insideQuotes := true } := by
  cases cs with
  | nil => simp [csvRun, hq]
  | cons c2 cs2 => simp [csvRun, hq]

theorem csvRun_closeQuote (c2 : Char) (cs2 : List Char) (s : CSVState)
    (hq : s.insideQuotes = true) (h2 : c2 ≠ dquote) :
    csvRun (dquote :: c2 :: cs2) s
      = csvRun (c2 :: cs2) { s with insideQuotes := false } := by
  simp [csvRun, hq, h2]

theorem csvRun_escapedQuote (cs2 : List Char) (s : CSVState)
    (hq : s.insideQuotes = true) :
    csvRun (dquote :: dquote :: cs2) s
      = csvRun cs2 { s with curField := s.curField ++ [dquote] } := by
  simp [csvRun, hq]

theorem csvRun_comma (cs : List Char) (s : CSVState)
    (hq : s.insideQuotes = false) :
    csvRun (commaChar :: cs) s
      = csvRun cs { s with curLine := s.curLine ++ [s.curField], curField := [] } := by
  have hd : commaChar ≠ dquote := by decide
  cases cs with
  | nil => simp [csvRun, hq, hd]
  | cons c2 cs2 => simp [csvRun, hq, hd]

theorem csvRun_lf (cs : List Char) (s : CSVState)
    (hq : s.insideQuotes = false) :
    csvRun (lineFeed :: cs) s = csvRun cs (afterLine s) := by
  have h1 : lineFeed ≠ dquote := by decide
  have h2 : lineFeed ≠ commaChar := by decide
  have h3 : lineFeed ≠ carriageReturn := by decide
  cases cs with
  | nil => simp [csvRun, hq, h1, h2, h3]
  | cons c2 cs2 => simp [csvRun, hq, h1, h2, h3]

/-- Inside quotes, a stretch of quote-free characters is appended to the
current field verbatim. -/
theorem csvRun_inQuotes_append (v : List Char) :
    ∀ (cs : List Char) (s : CSVState), dquote ∉ v → s.insideQuotes = true →
      csvRun (v ++ cs) s = csvRun cs { s with curField := s.curField ++ v } := by
  induction v with
  | nil => intro cs s _ _; simp
  | cons c v ih =>
    intro cs s hv hq
    have hc : c ≠ dquote := fun h => hv (by simp [h])
    have hv2 : dquote ∉ v := fun h => hv (List.mem_cons_of_mem _ h)
    calc csvRun ((c :: v) ++ cs) s
        = csvRun (v ++ cs) { s with curField := s.curField ++ [c] } := by
          rw [List.cons_append, csvRun_inQuotes_char c _ s hc hq]
      _ = csvRun cs { s with curField := (s.curField ++ [c]) ++ v } :=
          ih cs _ hv2 hq
      _ = csvRun cs { s with curField := s.curField ++ c :: v } := by simp

/-- Inside quotes, consuming the quote-doubled rendering of `v` appends `v`
itself to the current field. -/
theorem csvRun_escQuotes_append (v : List Char) :
    ∀ (cs : List Char) (s : CSVState), s.insideQuotes = true →
      csvRun (escapeQuotes v ++ cs) s
        = csvRun cs { s with curField := s.curField ++ v } := by
  induction v with
  | nil => intro cs s _; simp [escapeQuotes]
  | cons c v ih =>
    intro cs s hq
    by_cases hc : c = dquote
    · subst hc
      calc csvRun (escapeQuotes (dquote :: v) ++ cs) s
          = csvRun (escapeQuotes v ++ cs)
              { s with curField := s.curField ++ [dquote] } := by
            rw [show escapeQuotes (dquote :: v)
                  = dquote :: dquote :: escapeQuotes v from by simp [escapeQuotes],
                List.cons_append, List.cons_append, csvRun_escapedQuote _ _ hq]
        _ = csvRun cs { s with curField := (s.curField ++ [dquote]) ++ v } :=
            ih cs _ hq
        _ = csvRun cs { s with curField := s.curField ++ dquote :: v } := by simp
    · calc csvRun (escapeQuotes (c :: v) ++ cs) s
          = csvRun (escapeQuotes v ++ cs)
              { s with curField := s.curField ++ [c] } := by
            rw [show escapeQuotes (c :: v) = c :: escapeQuotes v
                  from by simp [escapeQuotes, hc],
                List.cons_append, csvRun_inQuotes_char _ _ _ hc hq]
        _ = csvRun cs { s with curField := (s.curField ++ [c]) ++ v } :=
            ih cs _ hq
        _ = csvRun cs { s with curField := s.curField ++ c :: v } := by simp

/-- A terminated line whose characters are only commas and non-terminator
whitespace leaves no trace: every field of the line trims to empty, so the
blank-line check at script.js:33 drops it. -/
theorem csvRun_blank_line (bl : List Char) :
    ∀ (rest : List Char) (s : CSVState),
      (∀ c ∈ bl, c = commaChar ∨ (c.isWhitespace ∧ c ≠ lineFeed ∧ c ≠ carriageReturn)) →
      s.insideQuotes = false →
      (∀ f ∈ s.curLine, ∀ ch ∈ f, ch.isWhitespace) →
      (∀ ch ∈ s.curField, ch.isWhitespace) →
      csvRun (bl ++ lineFeed :: rest) s = csvRun rest ⟨s.lines, [], [], false⟩ := by
  induction bl with
  | nil =>
    intro rest s _ hq hline hfield
    rw [List.nil_append, csvRun_lf _ _ hq]
    have hflush : flushLine s = s.lines := by
      have hall : ((s.curLine ++ [s.curField]).any
          (fun f => f.any (fun ch => !ch.isWhitespace))) = false := by
        simp only [List.any_eq_false, List.mem_append, List.mem_singleton]
        rintro f (hf | rfl)
        · simp only [List.any_eq_false, Bool.not_eq_true]
          intro ch hch
          simpa using hline f hf ch hch
        · simp only [List.any_eq_false, Bool.not_eq_true]
          intro ch hch
          simpa using hfield ch hch
      simp [flushLine, hall]
    rw [show afterLine s = ⟨s.lines, [], [], false⟩ from by
      simp [afterLine, hflush, hq]]
  | cons c bl ih =>
    intro rest s hbl hq hline hfield
    have hc := hbl c (List.mem_cons_self _ _)
    have hbl2 : ∀ x ∈ bl, x = commaChar ∨
        (x.isWhitespace ∧ x ≠ lineFeed ∧ x ≠ carriageReturn) :=
      fun x hx => hbl x (List.mem_cons_of_mem _ hx)
    rcases hc with hc | ⟨hw, hlf, hcr⟩
    · subst hc
      rw [List.cons_append, csvRun_comma _ _ hq]
      refine ih rest _ hbl2 hq ?_ ?_
      · intro f hf
        rcases List.mem_append.mp hf with hf | hf
        · exact hline f hf
        · rw [List.mem_singleton.mp hf]; exact hfield
      · intro ch hch; simp at hch
    · have hcq : c ≠ dquote := by
        intro h; subst h; simp [dquote, Char.ofNat] at hw
      have hcc : c ≠ commaChar := by
        intro h; subst h; simp [commaChar, Char.ofNat] at hw
      rw [List.cons_append, csvRun_plain c _ s hcq hcc hlf hcr]
      refine ih rest _ hbl2 hq hline ?_
      intro ch hch
      rcases List.mem_append.mp hch with hch | hch
      · exact hfield ch hch
      · rw [List.mem_singleton.mp hch]; exact hw

/-- Consuming a one-column header line `A` from the initial state. -/
theorem csvRun_header_A (rest : List Char) :
    csvRun ('A' :: lineFeed :: rest) initCSVState
      = csvRun rest ⟨[[['A']]], [], [], false⟩ := by
  rw [csvRun_plain 'A' _ _ (by decide) (by decide) (by decide) (by decide),
      csvRun_lf _ _ rfl]
  congr 1

/-- The emitted lines of the quoted round-trip input: the header line and the
single quoted field, provided the field has a non-whitespace character. -/
theorem csvLines_roundtrip (v : String)
    (hv : v.toList.any (fun c => !c.isWhitespace) = true) :
    csvLines ("A\n" ++ quoteCSVField v ++ "\n") = [[['A']], [v.toList]] := by
  have h1 : "A\n".data = ['A', lineFeed] := by decide
  have h2 : "\n".data = [lineFeed] := by decide
  have hnl : ('\n' : Char) = lineFeed := by decide
  have htl : ("A\n" ++ quoteCSVField v ++ "\n").toList
      = 'A' :: lineFeed :: dquote :: (escapeQuotes v.toList ++ [dquote, lineFeed]) := by
    simp only [String.toList, String.data_append, quoteCSVField, data_mk, h1, h2]
    simp
    exact hnl
  unfold csvLines
  rw [htl, csvRun_header_A, csvRun_openQuote _ _ rfl,
      csvRun_escQuotes_append v.toList [dquote, lineFeed] _ rfl,
      csvRun_closeQuote lineFeed [] _ rfl (by decide),
      csvRun_lf [] _ rfl]
  simp [csvRun, afterLine, flushLine, csvFinish]
  simpa using hv

/-- Inside quotes, running off the end of the input leaves the accumulated
field in place: end-of-input implicitly closes the field. -/
theorem csvRun_inQuotes_all (v : List Char) (s : CSVState)
    (hv : dquote ∉ v) (hq : s.insideQuotes = true) :
    csvRun v s = { s with curField := s.curField ++ v } := by
  have h := csvRun_inQuotes_append v [] s hv hq
  rw [List.append_nil] at h
  simpa [csvRun] using h

/-- Claim C2 (amended): the quote-doubling round trip reproduces any field value
that is not pure whitespace. -/
theorem spec_C2_roundtrip (v : String)
    (hv : v.toList.any (fun c => !c.isWhitespace) = true) :
    parseCSV ("A\n" ++ quoteCSVField v ++ "\n") = some [[("A", v)]] := by
  unfold parseCSV
  rw [csvLines_roundtrip v hv]
  have htrim : jsTrim (String.mk ['A']) = "A" := by decide
  simp [mkRow, List.enum, List.enumFrom, htrim, List.getD, mk_toList]

/-- Claim C2, counterexample to the unrestricted claim: the field value consisting
of a single newline contains a newline character, but quoting it and parsing
the result yields no data row at all — the parsed line consists of a single
all-whitespace field, so the blank-line check of script.js:33 drops it. -/
theorem spec_C2_counterexample :
    parseCSV ("A\n" ++ quoteCSVField "\n" ++ "\n") = some []
    ∧ parseCSV ("A\n" ++ quoteCSVField "\n" ++ "\n") ≠ some [[("A", "\n")]] := by
  constructor
  · decide
  · decide

/-- Claim C2 witness: the round trip at the concrete value `a"b`. -/
theorem spec_C2_roundtrip_witness :
    ((String.mk ['a', dquote, 'b']).toList.any (fun c => !c.isWhitespace) = true)
    ∧ parseCSV ("A\n" ++ quoteCSVField (String.mk ['a', dquote, 'b']) ++ "\n")
        = some [[("A", String.mk ['a', dquote, 'b'])]] :=
  ⟨by decide, spec_C2_roundtrip _ (by decide)⟩

/-- Claim C6, counterexample to the unrestricted claim: the one-character input
consisting of a single double quote ends inside an unterminated quoted
field, yet `parseCSV` does not return normally — no line is emitted, so the
header extraction `lines[0].map(...)` of script.js:50 faults (modelled as
`none`). -/
theorem spec_C6_counterexample :
    endsInsideQuotes (String.mk [dquote]) = true
    ∧ parseCSV (String.mk [dquote]) = none := by
  constructor
  · decide
  · decide

/-- Claim C6 (amended): for an input that ends inside an unterminated quoted field
but has emitted at least one line (here: a header line followed by an
unterminated quoted field with at least one character), `parseCSV` returns
normally, end-of-input implicitly closes the quote and the field, and the
trailing line is emitted as a row. -/
theorem spec_C6_unterminated (v : List Char) (h1 : dquote ∉ v) (h2 : v ≠ []) :
    endsInsideQuotes (String.mk ('A' :: lineFeed :: dquote :: v)) = true
    ∧ parseCSV (String.mk ('A' :: lineFeed :: dquote :: v))
        = some [[("A", String.mk v)]] := by
  have hrun : csvRun ('A' :: lineFeed :: dquote :: v) initCSVState
      = ⟨[[['A']]], [], v, true⟩ := by
    rw [csvRun_header_A, csvRun_openQuote _ _ rfl,
        csvRun_inQuotes_all v _ h1 rfl]
    simp
  constructor
  · unfold endsInsideQuotes
    rw [toList_mk, hrun]
  · unfold parseCSV csvLines
    rw [toList_mk, hrun]
    unfold csvFinish
    rw [if_pos (Or.inl h2)]
    have htrim : jsTrim (String.mk ['A']) = "A" := by decide
    simp [mkRow, List.enum, List.enumFrom, htrim, List.getD]

/-- Claim C6 witness: the unterminated input `A\n"abc`. -/
theorem spec_C6_unterminated_witness :
    (dquote ∉ (['a', 'b', 'c'] : List Char)) ∧ (['a', 'b', 'c'] : List Char) ≠ []
    ∧ (endsInsideQuotes (String.mk ('A' :: lineFeed :: dquote :: ['a', 'b', 'c'])) = true
       ∧ parseCSV (String.mk ('A' :: lineFeed :: dquote :: ['a', 'b', 'c']))
           = some [[("A", String.mk ['a', 'b', 'c'])]]) :=
  ⟨by decide, by decide, spec_C6_unterminated ['a', 'b', 'c'] (by decide) (by decide)⟩

/-- Claim C4, counterexample to the unrestricted claim: the input `A\n,` ends in a
final unterminated line `,` whose two fields are both empty — a blank line —
yet `parseCSV` emits a row for it, because the end-of-input flush at
script.js:44-47 has no blank-line check. -/
theorem spec_C4_counterexample :
    parseCSV "A\n," = some [[("A", "")]]
    ∧ parseCSV "A\n," ≠ some [] := by
  constructor
  · decide
  · decide

/-- Claim C4 (amended): a line of commas and non-terminator whitespace followed by
a line terminator produces no output row, from any loop state with only
blank fields accumulated; the claim's example `A\n\n1\n` parses to the
single row `{A:"1"}`.  (A *final* blank line with no terminator is dropped
only when it is entirely empty: the end-of-input flush keeps any line with
a nonempty field text or an already-pushed field.) -/
theorem spec_C4_blank_lines :
    parseCSV "A\n\n1\n" = some [[("A", "1")]]
    ∧ (∀ (bl rest : List Char) (s : CSVState),
        (∀ c ∈ bl, c = commaChar ∨ (c.isWhitespace ∧ c ≠ lineFeed ∧ c ≠ carriageReturn)) →
        s.insideQuotes = false →
        (∀ f ∈ s.curLine, ∀ ch ∈ f, ch.isWhitespace) →
        (∀ ch ∈ s.curField, ch.isWhitespace) →
        csvRun (bl ++ lineFeed :: rest) s = csvRun rest ⟨s.lines, [], [], false⟩)
    ∧ (∀ s : CSVState, s.curField ≠ [] ∨ s.curLine ≠ [] →
        csvFinish s = s.lines ++ [s.curLine ++ [s.curField]]) := by
  refine ⟨by decide, fun bl rest s h hq h1 h2 => csvRun_blank_line bl rest s h hq h1 h2, ?_⟩
  intro s h
  unfold csvFinish
  rw [if_pos h]

/-- Claim C4 witness: dropping the blank line ` , ` in mid-input, and the
end-of-input flush keeping a whitespace-only final field. -/
theorem spec_C4_blank_lines_witness :
    parseCSV "A\n\n1\n" = some [[("A", "1")]]
    ∧ csvRun ([' ', commaChar, ' '] ++ lineFeed :: ['1']) ⟨[[['A']]], [], [], false⟩
        = csvRun ['1'] ⟨[[['A']]], [], [], false⟩
    ∧ csvFinish ⟨[], [], [' '], false⟩ = [] ++ [[] ++ [[' ']]] :=
  ⟨spec_C4_blank_lines.1,
   spec_C4_blank_lines.2.1 [' ', commaChar, ' '] ['1'] ⟨[[['A']]], [], [], false⟩
     (by decide) rfl (by simp) (by simp),
   spec_C4_blank_lines.2.2 ⟨[], [], [' '], false⟩ (Or.inl (by decide))⟩

/-- Claim C10 (confirmed): `parseCSV` is not total — on the empty input, and on an
input of only quote characters, no line is emitted and the header extraction
`lines[0].map(...)` faults (modelled as `none`); in general a row sequence
is returned exactly when at least one line was emitted. -/
theorem spec_C10_empty_input :
    parseCSV "" = none
    ∧ parseCSV (String.mk [dquote, dquote]) = none
    ∧ (∀ text : String, (parseCSV text).isSome = true ↔ csvLines text ≠ []) := by
  refine ⟨by decide, by decide, ?_⟩
  intro text
  unfold parseCSV
  cases h : csvLines text with
  | nil => simp
  | cons hd tl => simp

/-- Claim C3, counterexample: `cleanPrice` does not preserve other inputs as-is —
it returns the *trimmed* string (`" 300 "` becomes `"300"`); and a
whitespace-only input, which is neither empty nor the sentinel `???`, is
also normalized to absent. -/
theorem spec_C3_counterexample :
    cleanPrice (some " 300 ") = some "300"
    ∧ cleanPrice (some " 300 ") ≠ some " 300 "
    ∧ cleanPrice (some " ") = none := by
  refine ⟨by decide, by decide, by decide⟩

/-- Claim C3 (amended): `normalize` computes both price fields with `cleanPrice`;
the price is absent exactly when the *trimmed* field is empty or is the
literal `???` (which covers the empty string, a missing column, and
whitespace-only input); any other input is preserved *after trimming*. -/
theorem spec_C3_price_sentinel :
    (∀ row : List (String × String),
      (normalizeItem row).askingPrice = cleanPrice (rowGet row "Asking price")
      ∧ (normalizeItem row).newPrice = cleanPrice (rowGet row "New price"))
    ∧ (∀ p : Option String,
        cleanPrice p = none
          ↔ (jsTrim (jsOrDefault p "") = "" ∨ jsTrim (jsOrDefault p "") = "???"))
    ∧ (∀ s : String, jsTrim s ≠ "" → jsTrim s ≠ "???" →
        cleanPrice (some s) = some (jsTrim s)) := by
  refine ⟨fun row => ⟨rfl, rfl⟩, ?_, ?_⟩
  · intro p
    unfold cleanPrice
    by_cases h : jsTrim (jsOrDefault p "") = "" ∨ jsTrim (jsOrDefault p "") = "???"
    · simp only [h, if_pos h]
      simp [h]
    · simp only [if_neg h]
      simp [h]
  · intro s h1 h2
    have hs : jsOrDefault (some s) "" = s := by
      unfold jsOrDefault
      by_cases h : s = ""
      · subst h; simp
      · simp [h]
    unfold cleanPrice
    rw [hs, if_neg (by push_neg; exact ⟨h1, h2⟩)]

/-- Claim C3 witness: the non-sentinel value `" 300 "`. -/
theorem spec_C3_price_sentinel_witness :
    jsTrim " 300 " ≠ "" ∧ jsTrim " 300 " ≠ "???"
    ∧ cleanPrice (some " 300 ") = some (jsTrim " 300 ") :=
  ⟨by decide, by decide, spec_C3_price_sentinel.2.2 " 300 " (by decide) (by decide)⟩

/-- Claim C9, counterexample: a whitespace-only availability value is neither the
empty string nor the sentinel `???`, yet `formatAvailability` normalizes it
to absent (the code also tests `available.trim() === ''`). -/
theorem spec_C9_counterexample :
    formatAvailability " " = none ∧ " " ≠ "" ∧ " " ≠ "???" := by
  refine ⟨by decide, by decide, by decide⟩

/-- Claim C9 (amended): the availability value fed to the display is the raw
`Available` field; `formatAvailability` yields absent exactly when the value
is the exact sentinel `???` or trims to empty (covering the empty string and
whitespace-only values); a value whose lower-casing is exactly `now` yields
the fixed phrase; any other non-absent value `v` yields `"Available " ++ v`
with `v` untrimmed. -/
theorem spec_C9_availability :
    (∀ row : List (String × String),
      (normalizeItem row).available = jsOrDefault (rowGet row "Available") "")
    ∧ (∀ v : String, formatAvailability v = none ↔ (v = "???" ∨ jsTrim v = ""))
    ∧ (∀ v : String, jsToLower v = "now" → v ≠ "???" → jsTrim v ≠ "" →
        formatAvailability v = some "Available now")
    ∧ (∀ v : String, ¬(v = "???" ∨ jsTrim v = "") → jsToLower v ≠ "now" →
        formatAvailability v = some ("Available " ++ v)) := by
  have hempty : jsTrim "" = "" := by decide
  refine ⟨fun row => rfl, ?_, ?_, ?_⟩
  · intro v
    unfold formatAvailability
    by_cases h : v = "" ∨ v = "???" ∨ jsTrim v = ""
    · rw [if_pos h]
      have hr : v = "???" ∨ jsTrim v = "" := by
        rcases h with rfl | h | h
        · exact Or.inr hempty
        · exact Or.inl h
        · exact Or.inr h
      simp [hr]
    · rw [if_neg h]
      push_neg at h
      constructor
      · intro hcon
        by_cases hl : jsToLower v = "now" <;> simp [hl] at hcon
      · intro hcon
        rcases hcon with hcon | hcon
        · exact absurd hcon h.2.1
        · exact absurd hcon h.2.2
  · intro v hlow hq ht
    have hne : v ≠ "" := by
      intro h; subst h
      exact absurd hlow (by decide)
    unfold formatAvailability
    rw [if_neg (by push_neg; exact ⟨hne, hq, ht⟩), if_pos hlow]
  · intro v h hlow
    push_neg at h
    have hne : v ≠ "" := by
      intro he; subst he
      exact h.2 hempty
    unfold formatAvailability
    rw [if_neg (by push_neg; exact ⟨hne, h.1, h.2⟩), if_neg hlow]

/-- Claim C9 witness: the case-insensitive `now` and an ordinary value. -/
theorem spec_C9_availability_witness :
    (jsToLower "NOW" = "now" ∧ "NOW" ≠ "???" ∧ jsTrim "NOW" ≠ ""
      ∧ formatAvailability "NOW" = some "Available now")
    ∧ (¬("soon" = "???" ∨ jsTrim "soon" = "") ∧ jsToLower "soon" ≠ "now"
      ∧ formatAvailability "soon" = some ("Available " ++ "soon")) :=
  ⟨⟨by decide, by decide, by decide,
    spec_C9_availability.2.2.1 "NOW" (by decide) (by decide) (by decide)⟩,
   ⟨by decide, by decide,
    spec_C9_availability.2.2.2 "soon" (by decide) (by decide)⟩⟩

/-- Iterating the `next` index update `k` times from an in-range index adds
`k` modulo the image count. -/
theorem navNext_iterate (N : Int) (hN : 0 < N) :
    ∀ (k : Nat) (i : Int), 0 ≤ i → i < N →
      (fun j : Int => (j + 1 + N) % N)^[k] i = (i + k) % N := by
  intro k
  induction k with
  | zero =>
    intro i h0 hlt
    simpa using (Int.emod_eq_of_lt h0 hlt).symm
  | succ k ih =>
    intro i h0 hlt
    rw [Function.iterate_succ_apply]
    have hstep : (i + 1 + N) % N = (i + 1) % N := by
      simpa using Int.add_mul_emod_self_left (i + 1) N 1
    simp only [hstep]
    rw [ih _ (Int.emod_nonneg _ (by omega)) (Int.emod_lt_of_pos _ hN),
        Int.emod_add_emod]
    congr 1
    push_cast
    ring

/-- Claim C7 (confirmed): with at least two images, `prev` from index 0 lands on
the last index, and `next` applied `N` times from any in-range index returns
to that index (script.js:215 computes
`(currentIndex + direction + images.length) % images.length`). -/
theorem spec_C7_navigation_wraps (images : List String)
    (hN : 2 ≤ images.length) :
    navigateImage images 0 (-1) = (images.length : Int) - 1
    ∧ (∀ i : Int, 0 ≤ i → i < (images.length : Int) →
        (fun j => navigateImage images j 1)^[images.length] i = i) := by
  have hN2 : 0 < images.length := by omega
  have hN0 : (0 : Int) < (images.length : Int) := by exact_mod_cast hN2
  have hN1 : (2 : Int) ≤ (images.length : Int) := by exact_mod_cast hN
  constructor
  · show (0 + -1 + (images.length : Int)) % (images.length : Int)
        = (images.length : Int) - 1
    rw [show (0 : Int) + -1 + (images.length : Int)
          = (images.length : Int) - 1 from by ring]
    exact Int.emod_eq_of_lt (by omega) (by omega)
  · intro i h0 hlt
    have hfun : (fun j => navigateImage images j 1)
        = (fun j : Int => (j + 1 + (images.length : Int)) % (images.length : Int)) := rfl
    rw [hfun, navNext_iterate _ hN0 _ _ h0 hlt,
        show (i + (images.length : Int)) % (images.length : Int)
            = i % (images.length : Int) from by
          simpa using Int.add_mul_emod_self_left i (images.length : Int) 1]
    exact Int.emod_eq_of_lt h0 hlt

/-- Claim C7 witness: a three-image gallery, `prev` from 0 and three `next`
steps from index 2. -/
theorem spec_C7_navigation_wraps_witness :
    2 ≤ (["a", "b", "c"] : List String).length
    ∧ navigateImage ["a", "b", "c"] 0 (-1) = ((["a", "b", "c"] : List String).length : Int) - 1
    ∧ (fun j => navigateImage ["a", "b", "c"] j 1)^[(["a", "b", "c"] : List String).length] 2 = 2 := by
  have h := spec_C7_navigation_wraps ["a", "b", "c"] (by decide)
  exact ⟨by decide, h.1, h.2 2 (by norm_num) (by norm_num)⟩

/-- Claim C8 (confirmed): from a valid state the index update of the card gallery
(`navigateImage`, script.js:215) and of the modal (`navigateModalImage`,
script.js:386) keeps the index in `[0, images.length)`, moves it by exactly
`direction` modulo the count, the two transitions agree (the modal sync
copies the same index), and the initial index 0 is valid. -/
theorem spec_C8_index_invariant (images : List String) (i d : Int)
    (hne : images ≠ []) (h0 : 0 ≤ i) (hlt : i < (images.length : Int))
    (_hd : d = 1 ∨ d = -1) :
    (0 : Int) < (images.length : Int)
    ∧ 0 ≤ navigateImage images i d
    ∧ navigateImage images i d < (images.length : Int)
    ∧ navigateImage images i d = (i + d) % (images.length : Int)
    ∧ navigateModalImage images i d = navigateImage images i d := by
  have hN : (0 : Int) < (images.length : Int) := by
    exact_mod_cast List.length_pos.mpr hne
  refine ⟨hN, Int.emod_nonneg _ (by omega), Int.emod_lt_of_pos _ hN, ?_, rfl⟩
  show (i + d + (images.length : Int)) % (images.length : Int) = _
  simpa using Int.add_mul_emod_self_left (i + d) (images.length : Int) 1

/-- Claim C8 witness: a two-image gallery, `prev` from index 1. -/
theorem spec_C8_index_invariant_witness :
    (0 : Int) < ((["a", "b"] : List String).length : Int)
    ∧ 0 ≤ navigateImage ["a", "b"] 1 (-1)
    ∧ navigateImage ["a", "b"] 1 (-1) < ((["a", "b"] : List String).length : Int)
    ∧ navigateImage ["a", "b"] 1 (-1) = (1 + -1) % ((["a", "b"] : List String).length : Int)
    ∧ navigateModalImage ["a", "b"] 1 (-1) = navigateImage ["a", "b"] 1 (-1) :=
  spec_C8_index_invariant ["a", "b"] 1 (-1) (by decide) (by norm_num)
    (by norm_num) (Or.inr rfl)

/-- Claim C5 (confirmed): the concrete example `A,B\n1,2\n3\n` parses to exactly
`{A:"1",B:"2"}` and `{A:"3",B:""}`; in general each row object has exactly
the trimmed header values as keys in order, a missing trailing field reads
as the empty string (`line[index] || ''` with `line[index]` undefined), and
fields beyond the headers are discarded (`headers.forEach` only); and the
rows of `parseCSV` are exactly `mkRow` of the first emitted line's trimmed
values over each subsequent line. -/
theorem spec_C5_header_mapping :
    parseCSV "A,B\n1,2\n3\n"
      = some [[("A", "1"), ("B", "2")], [("A", "3"), ("B", "")]]
    ∧ (∀ hs l : List String,
        (mkRow hs l).map Prod.fst = hs ∧ (mkRow hs l).length = hs.length)
    ∧ (∀ (hs l : List String) (i : Nat), i < hs.length →
        (mkRow hs l).getD i ("", "") = (hs.getD i "", l.getD i ""))
    ∧ (∀ (text : String) (header : List (List Char))
          (dataLines : List (List (List Char))),
        csvLines text = header :: dataLines →
        parseCSV text = some (dataLines.map (fun line =>
          mkRow (header.map (fun h => jsTrim (String.mk h))) (line.map String.mk)))) := by
  refine ⟨by decide, ?_, ?_, ?_⟩
  · intro hs l
    constructor
    · rw [mkRow, List.map_map]
      have hcomp : (Prod.fst ∘ fun p : Nat × String => (p.2, l.getD p.1 ""))
          = Prod.snd := by
        funext p; rfl
      rw [hcomp]
      exact List.enum_map_snd hs
    · simp [mkRow]
  · intro hs l i h
    have h2 : i < (mkRow hs l).length := by
      simpa [mkRow] using h
    rw [List.getD_eq_getElem _ _ h2, List.getD_eq_getElem _ _ h]
    simp [mkRow]
  · intro text header dataLines h
    unfold parseCSV
    rw [h]

/-- Claim C5 witness: `mkRow` at a ragged two-column row. -/
theorem spec_C5_header_mapping_witness :
    (1 : Nat) < (["A", "B"] : List String).length
    ∧ (mkRow ["A", "B"] ["3"]).getD 1 ("", "")
        = ((["A", "B"] : List String).getD 1 "", (["3"] : List String).getD 1 "") :=
  ⟨by decide, spec_C5_header_mapping.2.2.1 ["A", "B"] ["3"] 1 (by decide)⟩

/-- The escaped expansion of a single character contains no angle bracket. -/
theorem escChar_no_angle (c : Char) :
    Char.ofNat 60 ∉ escChar c ∧ Char.ofNat 62 ∉ escChar c := by
  unfold escChar
  split_ifs with h1 h2 h3
  · exact ⟨by decide, by decide⟩
  · exact ⟨by decide, by decide⟩
  · exact ⟨by decide, by decide⟩
  · constructor
    · intro hm; rw [List.mem_singleton] at hm; exact h2 hm.symm
    · intro hm; rw [List.mem_singleton] at hm; exact h3 hm.symm

/-- No raw angle bracket survives `escapeHtml`. -/
theorem escapeHtml_no_angle (s : String) :
    Char.ofNat 60 ∉ (escapeHtml s).toList ∧ Char.ofNat 62 ∉ (escapeHtml s).toList := by
  unfold escapeHtml
  rw [toList_mk]
  refine ⟨fun hm => ?_, fun hm => ?_⟩
  · obtain ⟨piece, hp, hmem⟩ := List.mem_flatten.mp hm
    obtain ⟨c, _, rfl⟩ := List.mem_map.mp hp
    exact (escChar_no_angle c).1 hmem
  · obtain ⟨piece, hp, hmem⟩ := List.mem_flatten.mp hm
    obtain ⟨c, _, rfl⟩ := List.mem_map.mp hp
    exact (escChar_no_angle c).2 hmem

/-- Single quotes are left alone by `escapeHtml`: the count is preserved. -/
theorem count_escChar (c : Char) :
    (escChar c).count squote = if c = squote then 1 else 0 := by
  by_cases h1 : c = Char.ofNat 38
  · subst h1; decide
  · by_cases h2 : c = Char.ofNat 60
    · subst h2; decide
    · by_cases h3 : c = Char.ofNat 62
      · subst h3; decide
      · rw [show escChar c = [c] from by
          unfold escChar; rw [if_neg h1, if_neg h2, if_neg h3]]
        simp [List.count_cons, List.count_nil, beq_iff_eq]

theorem count_escList (l : List Char) :
    ((l.map escChar).flatten).count squote = l.count squote := by
  induction l with
  | nil => simp
  | cons c l ih =>
    simp only [List.map_cons, List.flatten_cons, List.count_append, ih,
      count_escChar, List.count_cons, beq_iff_eq]
    split_ifs <;> omega

theorem countChar_escapeHtml (s : String) :
    countChar squote (escapeHtml s) = countChar squote s := by
  unfold countChar escapeHtml
  rw [toList_mk]
  exact count_escList s.toList

/-- The hexadecimal digits of the JSON control-character escape are never a
single quote. -/
theorem hexDigit_ne_squote (n : Nat) (h : n < 16) : hexDigit n ≠ squote := by
  interval_cases n <;> decide

/-- Escaping by `JSON.stringify` leaves single quotes alone. -/
theorem count_jsonEscChar (c : Char) :
    (jsonEscChar c).count squote = if c = squote then 1 else 0 := by
  by_cases h1 : c = dquote
  · subst h1; decide
  by_cases h2 : c = bslash
  · subst h2; decide
  by_cases h3 : c = Char.ofNat 8
  · subst h3; decide
  by_cases h4 : c = Char.ofNat 9
  · subst h4; decide
  by_cases h5 : c = lineFeed
  · subst h5; decide
  by_cases h6 : c = Char.ofNat 12
  · subst h6; decide
  by_cases h7 : c = carriageReturn
  · subst h7; decide
  by_cases h8 : c.toNat < 32
  · have hne : c ≠ squote := by
      intro he; subst he; exact absurd h8 (by decide)
    rw [show jsonEscChar c
          = [bslash, Char.ofNat 117, Char.ofNat 48, Char.ofNat 48,
             hexDigit (c.toNat / 16), hexDigit (c.toNat % 16)] from by
        unfold jsonEscChar
        rw [if_neg h1, if_neg h2, if_neg h3, if_neg h4, if_neg h5, if_neg h6,
          if_neg h7, if_pos h8],
      if_neg hne]
    have ha : hexDigit (c.toNat / 16) ≠ squote :=
      hexDigit_ne_squote _ (by omega)
    have hb : hexDigit (c.toNat % 16) ≠ squote :=
      hexDigit_ne_squote _ (Nat.mod_lt _ (by norm_num))
    simp [List.count_cons, List.count_nil, beq_iff_eq, ha, hb,
      show ¬(bslash = squote) from by decide,
      show ¬(Char.ofNat 117 = squote) from by decide,
      show ¬(Char.ofNat 48 = squote) from by decide]
  · rw [show jsonEscChar c = [c] from by
      unfold jsonEscChar
      rw [if_neg h1, if_neg h2, if_neg h3, if_neg h4, if_neg h5, if_neg h6,
        if_neg h7, if_neg h8]]
    simp [List.count_cons, List.count_nil, beq_iff_eq]

theorem count_jsonEscList (l : List Char) :
    ((l.map jsonEscChar).flatten).count squote = l.count squote := by
  induction l with
  | nil => simp
  | cons c l ih =>
    simp only [List.map_cons, List.flatten_cons, List.count_append, ih,
      count_jsonEscChar, List.count_cons, beq_iff_eq]
    split_ifs <;> omega

theorem count_jsonStr (s : String) :
    (jsonStr s).count squote = countChar squote s := by
  unfold jsonStr countChar
  simp [List.count_cons, List.count_append, beq_iff_eq, count_jsonEscList,
    show dquote ≠ squote from by decide]

theorem count_jsonItems (l : List String) :
    (jsonItems l).count squote = (l.map (fun s => countChar squote s)).sum := by
  induction l with
  | nil => simp [jsonItems]
  | cons s rest ih =>
    cases rest with
    | nil => simp [jsonItems, count_jsonStr]
    | cons s2 rest2 =>
      rw [show jsonItems (s :: s2 :: rest2)
            = jsonStr s ++ commaChar :: jsonItems (s2 :: rest2) from rfl,
          List.count_append, List.count_cons, ih]
      simp [count_jsonStr, beq_iff_eq, show commaChar ≠ squote from by decide]

/-- Single quotes inside the stringified filename array pass through
`JSON.stringify` one for one. -/
theorem count_jsonStringify (l : List String) :
    countChar squote (jsonStringify l) = (l.map (fun s => countChar squote s)).sum := by
  unfold countChar jsonStringify
  rw [toList_mk]
  simp [List.count_cons, List.count_append, List.count_nil, beq_iff_eq,
    count_jsonItems,
    show lbrack ≠ squote from by decide,
    show rbrack ≠ squote from by decide]
  rfl

/-- Quote census of the fragment for a single-image item: the two
`data-images` attribute delimiters, plus every single quote of the name
(passed through `escapeHtml` unescaped) and three copies of every single
quote of the filename (once inside `data-images` via `JSON.stringify`, once
in `src`, once in `data-full-image`). -/
theorem countChar_renderImageContainer (item : CatalogItem)
    (h : item.images.length = 1) :
    countChar squote (renderImageContainer item)
      = 2 + countChar squote item.name + 3 * countChar squote (item.images.headD "") := by
  obtain ⟨img, himg⟩ : ∃ img, item.images = [img] := by
    cases hi : item.images with
    | nil => rw [hi] at h; simp at h
    | cons a t =>
      cases t with
      | nil => exact ⟨a, rfl⟩
      | cons b t2 => rw [hi] at h; simp at h
  unfold renderImageContainer
  rw [himg]
  simp only [List.length_cons, List.length_nil, List.headD_cons, Nat.zero_add,
    gt_iff_lt, Nat.lt_irrefl, if_false]
  rw [if_neg (by omega)]
  have h1 : countChar squote "\n            <div class=\"item-image-container\" data-images=" = 0 := by decide
  have h2 : countChar squote (String.mk [squote]) = 1 := by decide
  have h3 : countChar squote ">\n                <img src=\"" = 0 := by decide
  have h4 : countChar squote "\"\n                     alt=\"" = 0 := by decide
  have h5 : countChar squote "\"\n                     class=\"item-image item-main-image\"\n                     data-full-image=\"" = 0 := by decide
  have h6 : countChar squote "\"\n                     data-current-index=\"0\">\n                " = 0 := by decide
  have h7 : countChar squote "\n            </div>\n        " = 0 := by decide
  have h8 : countChar squote "" = 0 := by decide
  have h9 : countChar squote (jsonStringify [img]) = countChar squote img := by
    rw [count_jsonStringify]
    simp
  simp only [countChar_append, h1, h2, h3, h4, h5, h6, h7, h8, h9,
    countChar_escapeHtml]
  omega

/-- A raw row whose `Images` field names a file containing a single quote. -/
def xssRow : List (String × String) :=
  [("Item", "x"), ("Images", "a" ++ String.mk [squote] ++ ".jpg")]

/-- Claim C1, counterexample: the filename `a'.jpg` from the `Images` field passes
into the fragment verbatim.  The template's only single quotes are the two
`data-images='...'` delimiters, so an attribute-safe fragment would contain
exactly 2 of them; this fragment contains 5 (the quote of the filename
reappears inside the single-quoted `data-images` value — terminating the
attribute early — and in the `src` and `data-full-image` values). -/
theorem spec_C1_counterexample :
    (normalizeItem xssRow).images = ["images/a" ++ String.mk [squote] ++ ".jpg"]
    ∧ ("a" ++ String.mk [squote] ++ ".jpg").toList
        <:+: (renderImageContainer (normalizeItem xssRow)).toList
    ∧ countChar squote (renderImageContainer (normalizeItem xssRow)) = 5
    ∧ countChar squote (renderImageContainer (normalizeItem xssRow)) ≠ 2 := by
  refine ⟨by decide, by decide, by decide, by decide⟩

/-- Claim C1 (amended): text passed through `escapeHtml` — the `name` and `notes`
fields — has its angle brackets escaped (the escaped output never contains
a raw `<` or `>`, and the attack value of the spec escapes to inert text);
but `escapeHtml` leaves quote characters unchanged, and the image filenames
are embedded into the `data-images`, `src` and `data-full-image` attributes
with no escaping at all, so attribute-breaking single quotes originating in
the user-supplied `Images` field pass through into the fragment unescaped:
the fragment of a single-image item carries exactly the template's 2
delimiter quotes plus the quotes of the name plus three copies of the
quotes of the filename. -/
theorem spec_C1_escaping :
    (∀ s : String, Char.ofNat 60 ∉ (escapeHtml s).toList
      ∧ Char.ofNat 62 ∉ (escapeHtml s).toList)
    ∧ escapeHtml "<img src=x onerror=alert(1)>" = "&lt;img src=x onerror=alert(1)&gt;"
    ∧ (∀ l : List String,
        countChar squote (jsonStringify l) = (l.map (fun s => countChar squote s)).sum)
    ∧ (∀ item : CatalogItem, item.images.length = 1 →
        countChar squote (renderImageContainer item)
          = 2 + countChar squote item.name
            + 3 * countChar squote (item.images.headD "")) :=
  ⟨escapeHtml_no_angle, by decide, count_jsonStringify, countChar_renderImageContainer⟩

/-- Claim C1 witness: the quote census at a concrete single-image item. -/
theorem spec_C1_escaping_witness :
    ((⟨"x", none, none, "", ["images/b.jpg"], "", false⟩ : CatalogItem).images.length = 1)
    ∧ countChar squote
        (renderImageContainer (⟨"x", none, none, "", ["images/b.jpg"], "", false⟩ : CatalogItem))
        = 2 + countChar squote (⟨"x", none, none, "", ["images/b.jpg"], "", false⟩ : CatalogItem).name
          + 3 * countChar squote
              ((⟨"x", none, none, "", ["images/b.jpg"], "", false⟩ : CatalogItem).images.headD "") :=
  ⟨by decide, spec_C1_escaping.2.2.2 _ (by decide)⟩
